import Mathlib

/-!
Verification development for the `road_following/train_model.ipynb` notebook
of the Jetbot_CAVEDU repository.

The notebook's original logic is shallowly embedded here:

* filename decoding (`get_x`, `get_y`) over strings, with Python's `int()`
  modelled for the nonnegative digit strings the naming scheme produces and
  float arithmetic modelled over `ℚ` (all values involved are exact);
* the `XYDataset` class (`__init__`, `__len__`, `__getitem__`), with images
  modelled as channel/height/width indexed pixel grids over `ℚ`, the per-access
  randomness (the `np.random.rand(1)` coin and the colour-jitter instantiation)
  passed explicitly, and disk reads modelled by an explicit decode environment;
* the train/test split (`int(0.1*len(dataset))` and `torch.utils.data.random_split`),
  with the random permutation drawn by `random_split` passed explicitly;
* the training loop's checkpointing state (`best_loss` / `torch.save`), with each
  epoch abstracted to its average test loss and its end-of-epoch parameters.

Library calls (PIL decode, torchvision transforms, torch serialization) are
modelled by their interface behaviour, as the spec scopes them out; the
notebook's own control flow is translated statement by statement.
-/

/-- Model of the Python string slice `s[a:b]` for `0 ≤ a ≤ b` (as used by
`get_x` and `get_y`): the characters at positions `[a, b)`, clamped to the
string's length. -/
def pySlice (s : String) (a b : Nat) : String :=
  String.mk ((s.toList.drop a).take (b - a))

/-- Model of Python `int()` restricted to the inputs the filename scheme can
produce: a nonempty all-digit string parses to its decimal value, anything
else raises (`none`).  Python `int()` additionally accepts surrounding
whitespace and a sign, which no `[3:6)` / `[7:10)` slice of the notebook's
`xy_%03d_%03d_%s.jpg` filenames exhibits. -/
def pyInt? (s : String) : Option Int :=
  if s.length ≠ 0 ∧ s.toList.all Char.isDigit then
    some (s.toList.foldl (fun acc c => 10 * acc + ((c.toNat : Int) - 48)) 0)
  else
    none

/-- `get_x(path)`: `(float(int(path[3:6])) - 50.0) / 50.0`.  Float arithmetic
is modelled over `ℚ`; for the integer inputs involved the float computation
is exact at the endpoints and rounds to the same side of ±1 in the interior,
so the `ℚ` model preserves the range facts stated below. -/
def get_x (path : String) : Option ℚ :=
  (pyInt? (pySlice path 3 6)).map (fun d => ((d : ℚ) - 50) / 50)

/-- `get_y(path)`: `(float(int(path[7:10])) - 50.0) / 50.0`. -/
def get_y (path : String) : Option ℚ :=
  (pyInt? (pySlice path 7 10)).map (fun d => ((d : ℚ) - 50) / 50)

/-- The decoded value `(d - 50) / 50` lies in `[-1, 1]` whenever `d ∈ [0, 100]`. -/
lemma decode_mem_Icc (d : Int) (h0 : 0 ≤ d) (h1 : d ≤ 100) :
    -1 ≤ ((d : ℚ) - 50) / 50 ∧ ((d : ℚ) - 50) / 50 ≤ 1 := by
  have hd0 : (0 : ℚ) ≤ (d : ℚ) := by exact_mod_cast h0
  have hd1 : (d : ℚ) ≤ 100 := by exact_mod_cast h1
  constructor
  · rw [le_div_iff₀ (by norm_num : (0:ℚ) < 50)]
    linarith
  · rw [div_le_iff₀ (by norm_num : (0:ℚ) < 50)]
    linarith

/-- If `pyInt?` succeeds then the parsed value is the one the slice denotes and
`get_x`/`get_y` succeed with the decoded value. -/
lemma get_x_eq_of_parse (path : String) (d : Int)
    (h : pyInt? (pySlice path 3 6) = some d) :
    get_x path = some (((d : ℚ) - 50) / 50) := by
  simp [get_x, h]

lemma get_y_eq_of_parse (path : String) (d : Int)
    (h : pyInt? (pySlice path 7 10) = some d) :
    get_y path = some (((d : ℚ) - 50) / 50) := by
  simp [get_y, h]

/-- C4: for every filename whose characters at offsets `[3:6)` and `[7:10)`
parse as integers `dx`, `dy` lying in `[0, 100]`, both decoded targets
`get_x` and `get_y`, computed as `(d - 50.0) / 50.0`, lie in `[-1, 1]`. -/
theorem C4_decoded_targets_in_unit_interval (path : String) (dx dy : Int)
    (hx : pyInt? (pySlice path 3 6) = some dx)
    (hy : pyInt? (pySlice path 7 10) = some dy)
    (hx0 : 0 ≤ dx) (hx1 : dx ≤ 100) (hy0 : 0 ≤ dy) (hy1 : dy ≤ 100) :
    ∃ x y : ℚ, get_x path = some x ∧ get_y path = some y ∧
      -1 ≤ x ∧ x ≤ 1 ∧ -1 ≤ y ∧ y ≤ 1 := by
  obtain ⟨hxl, hxr⟩ := decode_mem_Icc dx hx0 hx1
  obtain ⟨hyl, hyr⟩ := decode_mem_Icc dy hy0 hy1
  exact ⟨_, _, get_x_eq_of_parse path dx hx, get_y_eq_of_parse path dy hy,
    hxl, hxr, hyl, hyr⟩

/-- A decoded raster image: `channels` colour channels over a `height × width`
pixel grid, channel values in `ℚ` (byte values 0–255 for decoded images). -/
structure Image where
  channels : Nat
  height : Nat
  width : Nat
  pix : Fin height → Fin width → Fin channels → ℚ

/-- Model of `transforms.functional.hflip`: mirror the image horizontally,
column `j` becoming column `width - 1 - j`. -/
def hflip (img : Image) : Image :=
  { img with pix := fun i j c => img.pix i j.rev c }

/-- The per-access randomness of `XYDataset.__getitem__`: the value drawn by
`float(np.random.rand(1))` and the colour-jitter transformation as
instantiated by this access's sampled brightness/contrast/saturation/hue
factors (the `ColorJitter(0.3, 0.3, 0.3, 0.3)` member perturbs pixel values;
the shape contract it satisfies is stated separately as `shapePreserving`). -/
structure Draw where
  coin : ℚ
  jitter : Image → Image

/-- A transformation that keeps the raster's dimensions, as every
torchvision colour jitter does. -/
def shapePreserving (f : Image → Image) : Prop :=
  ∀ img : Image, (f img).channels = img.channels ∧
    (f img).height = img.height ∧ (f img).width = img.width

/-- Index sampling for `resize`. -/
lemma sampleIdx_lt {n m : Nat} (i : Fin n) (hm : 0 < m) : i.val * m / n < m := by
  rw [Nat.div_lt_iff_lt_mul i.pos]
  exact lt_of_lt_of_eq (Nat.mul_lt_mul_of_pos_right i.isLt hm) (Nat.mul_comm n m)

/-- Model of `transforms.functional.resize(image, (h, w))`: an `h × w` raster
sampled from the source image (nearest sampling stands in for the library's
interpolation; no claim depends on interpolated values, only on the output
dimensions).  The source raster must be nonempty, as the raster of every
decoded JPEG is. -/
def resize (h w : Nat) (img : Image) (hh : 0 < img.height) (hw : 0 < img.width) :
    Image where
  channels := img.channels
  height := h
  width := w
  pix := fun i j c =>
    img.pix ⟨i.val * img.height / h, sampleIdx_lt i hh⟩
      ⟨j.val * img.width / w, sampleIdx_lt j hw⟩ c

/-- A rank-3 tensor with explicit dimensions, the shape of
`transforms.functional.to_tensor`'s output. -/
structure Tensor3 where
  dim0 : Nat
  dim1 : Nat
  dim2 : Nat
  val : Fin dim0 → Fin dim1 → Fin dim2 → ℚ

/-- Model of `transforms.functional.to_tensor`: channel-first `(C, H, W)`
layout, byte values scaled into `[0, 1]`. -/
def to_tensor (img : Image) : Tensor3 where
  dim0 := img.channels
  dim1 := img.height
  dim2 := img.width
  val := fun c i j => img.pix i j c / 255

/-- Model of `image.numpy()[::-1].copy()` followed by `torch.from_numpy`:
reverse the order of the channel axis (RGB → BGR). -/
def reverseChannels (t : Tensor3) : Tensor3 :=
  { t with val := fun c i j => t.val c.rev i j }

/-- Model of `transforms.functional.normalize` as shipped with the notebook's
torchvision: channels are paired positionally with the mean/std lists and
mapped to `(v - mean[c]) / std[c]`; channels beyond the lists are left
untouched, mirroring the library's `zip` loop over channels.  (Named
`tvNormalize` because Mathlib already owns the plain name.) -/
def tvNormalize (mean std : List ℚ) (t : Tensor3) : Tensor3 :=
  { t with val := fun c i j =>
      match mean[c.val]?, std[c.val]? with
      | some m, some s => (t.val c i j - m) / s
      | _, _ => t.val c i j }

/-- A '*.jpg' glob match: the name ends in ".jpg" and, per glob's
hidden-file rule for the `*` wildcard, does not start with '.'. -/
def globJpg (name : String) : Bool :=
  !(List.isPrefixOf ['.'] name.toList) && List.isSuffixOf ".jpg".toList name.toList

/-- Model of `os.path.join(dir, name)` for the nonempty, separator-free
directory names the notebook uses. -/
def pathJoin (dir name : String) : String := dir ++ "/" ++ name

/-- Model of `os.path.basename`: the component after the last '/'. -/
def basename (p : String) : String :=
  String.mk ((p.toList.reverse.takeWhile (fun c => c ≠ '/')).reverse)

/-- The `XYDataset` object state: the stored directory, the stored
`random_hflips` flag, and the image path list built at construction. -/
structure XYDataset where
  directory : String
  random_hflips : Bool
  image_paths : List String

/-- `XYDataset.__init__`: stores the directory and the `random_hflips` flag
and lists the directory's '*.jpg' files via
`glob.glob(os.path.join(directory, '*.jpg'))`; the directory's entries are
passed explicitly as the filesystem environment.  The `ColorJitter` member
only fixes jitter parameters; its per-access sampling enters through `Draw`. -/
def XYDataset.init (directory : String) (entries : List String)
    (random_hflips : Bool := false) : XYDataset where
  directory := directory
  random_hflips := random_hflips
  image_paths := (entries.filter globJpg).map (pathJoin directory)

/-- `XYDataset.__len__`. -/
def XYDataset.len (ds : XYDataset) : Nat := ds.image_paths.length

/-- `XYDataset.__getitem__`, translated statement by statement.  `disk` maps
a path to its decoded image (`PIL.Image.open`); `r` carries this access's
randomness.  An index out of range, a filename whose slices fail `int()`,
and a degenerate raster (never produced by JPEG decode) raise, modelled by
`none`.  The method only reads the object, so the unchanged dataset is
returned alongside the result; the final `.float()` cast is the identity in
the `ℚ` model. -/
def XYDataset.getitem (ds : XYDataset) (disk : String → Image) (idx : Nat)
    (r : Draw) : XYDataset × Option (Tensor3 × ℚ × ℚ) :=
  (ds,
    match ds.image_paths[idx]? with
    | none => none
    | some image_path =>
      let image := disk image_path
      match get_x (basename image_path), get_y (basename image_path) with
      | some x, some y =>
        let fx := if r.coin > 1 / 2 then (hflip image, -x) else (image, x)
        let image2 := r.jitter fx.1
        if hpos : 0 < image2.height ∧ 0 < image2.width then
          some
            (tvNormalize [485/1000, 456/1000, 406/1000]
              [229/1000, 224/1000, 225/1000]
              (reverseChannels (to_tensor (resize 224 224 image2 hpos.1 hpos.2))),
             fx.2, y)
        else none
      | _, _ => none)

/-- A solid-colour test image. -/
def solidImage (c h w : Nat) (v : ℚ) : Image := ⟨c, h, w, fun _ _ _ => v⟩

/-- The horizontal mirror undoes itself. -/
lemma hflip_hflip (img : Image) : hflip (hflip img) = img := by
  cases img with
  | mk C H W pix =>
    simp only [hflip]
    congr 1
    funext i j c
    rw [Fin.rev_rev]

/-- The flip branch of `__getitem__`: mirror the image and negate the x
target (lines `image = transforms.functional.hflip(image)` / `x = -x`). -/
def flipNeg (p : Image × ℚ) : Image × ℚ := (hflip p.1, -p.2)

/-- Successful accesses decompose into the parsed path and targets: the path
is the indexed entry, y is its parsed y value, and x is the parsed x value,
negated exactly when the coin exceeds 0.5. -/
lemma getitem_parse {ds : XYDataset} {disk : String → Image} {idx : Nat}
    {r : Draw} {t : Tensor3} {x y : ℚ}
    (h : (ds.getitem disk idx r).2 = some (t, x, y)) :
    ∃ p x0, ds.image_paths[idx]? = some p ∧
      get_x (basename p) = some x0 ∧ get_y (basename p) = some y ∧
      x = (if r.coin > 1 / 2 then -x0 else x0) := by
  simp only [XYDataset.getitem] at h
  cases hp : ds.image_paths[idx]? with
  | none => rw [hp] at h; simp at h
  | some p =>
    rw [hp] at h
    dsimp only at h
    cases hx : get_x (basename p) with
    | none => rw [hx] at h; simp at h
    | some x0 =>
      rw [hx] at h
      cases hy : get_y (basename p) with
      | none => rw [hy] at h; simp at h
      | some y0 =>
        rw [hy] at h
        dsimp only at h
        by_cases hc : r.coin > 1 / 2
        · simp only [if_pos hc] at h
          simp only [Option.dite_none_right_eq_some, Option.some.injEq,
            Prod.mk.injEq] at h
          obtain ⟨-, -, hxeq, hyeq⟩ := h
          exact ⟨p, x0, rfl, hx, by rw [← hyeq]; exact hy,
            by rw [if_pos hc]; exact hxeq.symm⟩
        · simp only [if_neg hc] at h
          simp only [Option.dite_none_right_eq_some, Option.some.injEq,
            Prod.mk.injEq] at h
          obtain ⟨-, -, hxeq, hyeq⟩ := h
          exact ⟨p, x0, rfl, hx, by rw [← hyeq]; exact hy,
            by rw [if_neg hc]; exact hxeq.symm⟩

@[simp] lemma toNat_char_zero : '0'.toNat = 48 := rfl

@[simp] lemma toNat_char_three : '3'.toNat = 51 := rfl

@[simp] lemma toNat_char_five : '5'.toNat = 53 := rfl

@[simp] lemma toNat_char_seven : '7'.toNat = 55 := rfl

/-- C5: with the colour jitter and resize randomness held fixed, mirroring
the image and negating its x target, twice, reproduces the original pair:
the flip-and-negate transformation of `__getitem__` is an involution. -/
theorem C5_flip_negate_involution (p : Image × ℚ) : flipNeg (flipNeg p) = p := by
  cases p with
  | mk img x => simp [flipNeg, hflip_hflip]

/-- C1 fails on the code: `__init__` stores `random_hflips` but `__getitem__`
never consults it — the flip branch runs whenever the coin exceeds 0.5.  On a
dataset built with `random_hflips=False` over `xy_075_030_a.jpg` (whose parsed
x target is 1/2), the access with coin draw 3/5 returns x = -1/2: the image
was mirrored and the x target negated although the flag is false, against the
notebook's own description of the flag as making flips optional. -/
theorem C1_flip_branch_ignores_random_hflips :
    (XYDataset.init "dataset_1031_100" ["xy_075_030_a.jpg"] false).random_hflips
        = false ∧
    get_x "xy_075_030_a.jpg" = some (1/2) ∧
    (((XYDataset.init "dataset_1031_100" ["xy_075_030_a.jpg"] false).getitem
        (fun _ => solidImage 3 64 64 100) 0 ⟨3/5, id⟩).2.map
      (fun out => out.2.1)) = some (-(1/2)) := by
  refine ⟨rfl, ?_, ?_⟩
  · norm_num +decide [get_x, pyInt?, pySlice]
  · norm_num +decide [XYDataset.getitem, XYDataset.init, get_x, get_y, pyInt?,
      pySlice, basename, globJpg, pathJoin, solidImage, hflip]

/-- C8: the dataset enumerates exactly the '*.jpg' entries of the directory,
`__len__` returns their number, and `__getitem__` leaves the stored path list
(and hence the length) unchanged by every access. -/
theorem C8_len_counts_jpg_and_getitem_preserves (directory : String)
    (entries : List String) (flag : Bool) (disk : String → Image) (idx : Nat)
    (r : Draw) :
    (XYDataset.init directory entries flag).len
        = (entries.filter globJpg).length ∧
    ((XYDataset.init directory entries flag).getitem disk idx r).1
        = XYDataset.init directory entries flag ∧
    ((XYDataset.init directory entries flag).getitem disk idx r).1.len
        = (XYDataset.init directory entries flag).len := by
  refine ⟨?_, rfl, rfl⟩
  simp [XYDataset.len, XYDataset.init]

/-- C9: a successful access returns as y target exactly the value `get_y`
parses from the indexed path's basename, and every successful access at the
same index returns that same y whatever its coin draw and jitter: the flip
branch and the image transformations affect only the image and the x target. -/
theorem C9_y_target_unaffected_by_flip (ds : XYDataset) (disk : String → Image)
    (idx : Nat) (r : Draw) (t : Tensor3) (x y : ℚ)
    (h : (ds.getitem disk idx r).2 = some (t, x, y)) :
    (∃ p, ds.image_paths[idx]? = some p ∧ get_y (basename p) = some y) ∧
    ∀ r' : Draw, ∀ t' : Tensor3, ∀ x' y' : ℚ,
      (ds.getitem disk idx r').2 = some (t', x', y') → y' = y := by
  obtain ⟨p, x0, hp, hx, hy, -⟩ := getitem_parse h
  refine ⟨⟨p, hp, hy⟩, ?_⟩
  intro r' t' x' y' h'
  obtain ⟨p', x0', hp', hx', hy', -⟩ := getitem_parse h'
  rw [hp] at hp'
  injection hp' with hpp
  subst hpp
  rw [hy] at hy'
  injection hy' with hyy
  exact hyy.symm

/-- Witness for C9: at the one-file dataset, the access with coin 3/5 returns
y target -2/5, which the theorem traces back to the parsed filename. -/
theorem C9_y_target_unaffected_by_flip_witness :
    ∃ p, (XYDataset.init "d" ["xy_075_030_a.jpg"] false).image_paths[0]?
        = some p ∧ get_y (basename p) = some (-(2/5)) := by
  have h1 : (((XYDataset.init "d" ["xy_075_030_a.jpg"] false).getitem
      (fun _ => solidImage 3 64 64 100) 0 ⟨3/5, id⟩).2.map
        (fun out => out.2.2)) = some (-(2/5)) := by
    norm_num +decide [XYDataset.getitem, XYDataset.init, get_x, get_y, pyInt?,
      pySlice, basename, globJpg, pathJoin, solidImage, hflip]
  obtain ⟨out, hout, hyv⟩ := Option.map_eq_some'.mp h1
  obtain ⟨t, x, y⟩ := out
  obtain ⟨⟨p, hp, hy⟩, -⟩ :=
    C9_y_target_unaffected_by_flip _ _ _ _ _ _ _ hout
  refine ⟨p, hp, ?_⟩
  rw [hy]
  simp only at hyv
  rw [hyv]

/-- C6 amended: for a successful access on a three-channel input image (a
decoded colour JPEG) under any shape-preserving jitter, the returned tensor
has shape `(3, 224, 224)` regardless of the input's width and height.  The
unamended claim fails for inputs with a different channel count, see the
counterexample. -/
theorem C6_output_shape_3_224_224 (ds : XYDataset) (disk : String → Image)
    (idx : Nat) (r : Draw) (hjit : shapePreserving r.jitter)
    (hC : ∀ q : String, (disk q).channels = 3)
    (t : Tensor3) (x y : ℚ)
    (h : (ds.getitem disk idx r).2 = some (t, x, y)) :
    t.dim0 = 3 ∧ t.dim1 = 224 ∧ t.dim2 = 224 := by
  simp only [XYDataset.getitem] at h
  cases hp : ds.image_paths[idx]? with
  | none => rw [hp] at h; simp at h
  | some p =>
    rw [hp] at h
    dsimp only at h
    cases hx : get_x (basename p) with
    | none => rw [hx] at h; simp at h
    | some x0 =>
      rw [hx] at h
      cases hy : get_y (basename p) with
      | none => rw [hy] at h; simp at h
      | some y0 =>
        rw [hy] at h
        dsimp only at h
        simp only [Option.dite_none_right_eq_some, Option.some.injEq,
          Prod.mk.injEq] at h
        obtain ⟨hpos, ht, -, -⟩ := h
        rw [← ht]
        dsimp only [tvNormalize, reverseChannels, to_tensor, resize]
        refine ⟨?_, rfl, rfl⟩
        rw [(hjit _).1]
        by_cases hc : r.coin > 1 / 2
        · simp only [if_pos hc]
          exact hC p
        · simp only [if_neg hc]
          exact hC p

/-- Counterexample to C6 as stated: a single-channel (grayscale) input image
flows through the pipeline unconverted, and the access returns a tensor of
shape `(1, 224, 224)`, not `(3, 224, 224)`. -/
theorem C6_counterexample :
    (((XYDataset.init "d" ["xy_075_030_a.jpg"]).getitem
        (fun _ => solidImage 1 64 64 100) 0 ⟨1/4, id⟩).2.map
      (fun out => (out.1.dim0, out.1.dim1, out.1.dim2))) = some (1, 224, 224) ∧
    ((1, 224, 224) : Nat × Nat × Nat) ≠ (3, 224, 224) := by
  constructor
  · norm_num +decide [XYDataset.getitem, XYDataset.init, get_x, get_y, pyInt?,
      pySlice, basename, globJpg, pathJoin, solidImage, hflip, resize,
      to_tensor, reverseChannels, tvNormalize]
  · decide

/-- Witness for the amended C6 on a three-channel 64×64 input. -/
theorem C6_output_shape_3_224_224_witness :
    ∃ t : Tensor3, ∃ x y : ℚ,
      ((XYDataset.init "d" ["xy_075_030_a.jpg"] false).getitem
          (fun _ => solidImage 3 64 64 100) 0 ⟨1/4, id⟩).2 = some (t, x, y) ∧
      t.dim0 = 3 ∧ t.dim1 = 224 ∧ t.dim2 = 224 := by
  have h1 : (((XYDataset.init "d" ["xy_075_030_a.jpg"] false).getitem
      (fun _ => solidImage 3 64 64 100) 0 ⟨1/4, id⟩).2.map
        (fun out => out.2.2)) = some (-(2/5)) := by
    norm_num +decide [XYDataset.getitem, XYDataset.init, get_x, get_y, pyInt?,
      pySlice, basename, globJpg, pathJoin, solidImage, hflip]
  obtain ⟨out, hout, -⟩ := Option.map_eq_some'.mp h1
  obtain ⟨t, x, y⟩ := out
  obtain ⟨h0, h1, h2⟩ :=
    C6_output_shape_3_224_224 _ _ _ _ (fun img => ⟨rfl, rfl, rfl⟩)
      (fun q => rfl) _ _ _ hout
  exact ⟨t, x, y, hout, h0, h1, h2⟩

/-- Witness for C4 at the concrete filename `xy_075_030_a.jpg`:
the slices parse to 75 and 30, and the decoded targets are in `[-1, 1]`. -/
theorem C4_decoded_targets_in_unit_interval_witness :
    pyInt? (pySlice "xy_075_030_a.jpg" 3 6) = some 75 ∧
    pyInt? (pySlice "xy_075_030_a.jpg" 7 10) = some 30 ∧
    ∃ x y : ℚ, get_x "xy_075_030_a.jpg" = some x ∧
      get_y "xy_075_030_a.jpg" = some y ∧
      -1 ≤ x ∧ x ≤ 1 ∧ -1 ≤ y ∧ y ≤ 1 := by
  refine ⟨by decide, by decide, ?_⟩
  exact C4_decoded_targets_in_unit_interval "xy_075_030_a.jpg" 75 30
    (by decide) (by decide) (by decide) (by decide) (by decide) (by decide)

/-- Model of `int(test_percent * len(dataset))` with `test_percent = 0.1`:
for every representable dataset size N the float product `0.1 * N` lies in
the same unit interval as the exact value, so `int(0.1 * N)` equals
`⌊0.1 · N⌋`, embedded as Nat division. -/
def num_test (N : Nat) : Nat := N / 10

/-- Model of `torch.utils.data.random_split(dataset, [len0, len1])`: the
library draws a random permutation of the indices 0, …, N-1 (passed here
explicitly) and hands out consecutive chunks of the requested lengths as the
subsets' index lists. -/
def random_split (perm : List Nat) (len0 len1 : Nat) : List Nat × List Nat :=
  (perm.take len0, (perm.drop len0).take len1)

/-- The notebook's split:
`random_split(dataset, [len(dataset) - num_test, num_test])`. -/
def splitDataset (N : Nat) (perm : List Nat) : List Nat × List Nat :=
  random_split perm (N - num_test N) (num_test N)

/-- C3: for a dataset of size N and any permutation of its indices, the split
yields a train subset of exactly N - ⌊0.1·N⌋ indices and a test subset of
exactly ⌊0.1·N⌋ indices, every index below N lands in exactly one of the two
subsets, and no other index appears. -/
theorem C3_split_sizes_and_partition (N : Nat) (perm : List Nat)
    (hperm : perm.Perm (List.range N)) :
    (splitDataset N perm).1.length = N - N / 10 ∧
    (splitDataset N perm).2.length = N / 10 ∧
    (∀ i, i < N →
      (splitDataset N perm).1.count i + (splitDataset N perm).2.count i = 1) ∧
    (∀ i, (i ∈ (splitDataset N perm).1 ∨ i ∈ (splitDataset N perm).2) →
      i < N) := by
  have hlen : perm.length = N := by rw [hperm.length_eq, List.length_range]
  have htrain : (splitDataset N perm).1 = perm.take (N - N / 10) := rfl
  have hdrop_len : (perm.drop (N - N / 10)).length = N / 10 := by
    rw [List.length_drop, hlen]
    have := Nat.div_le_self N 10
    omega
  have htest : (splitDataset N perm).2 = perm.drop (N - N / 10) := by
    show (perm.drop (N - N / 10)).take (N / 10) = _
    exact List.take_of_length_le (le_of_eq hdrop_len)
  have happend :
      (splitDataset N perm).1 ++ (splitDataset N perm).2 = perm := by
    rw [htrain, htest]
    exact List.take_append_drop _ _
  refine ⟨?_, ?_, ?_, ?_⟩
  · rw [htrain, List.length_take, hlen]
    have := Nat.div_le_self N 10
    omega
  · rw [htest, hdrop_len]
  · intro i hi
    have hcount : perm.count i = 1 := by
      rw [hperm.count_eq]
      exact List.count_eq_one_of_mem (List.nodup_range N)
        (List.mem_range.mpr hi)
    calc (splitDataset N perm).1.count i + (splitDataset N perm).2.count i
        = ((splitDataset N perm).1 ++ (splitDataset N perm).2).count i :=
          (List.count_append i _ _).symm
      _ = perm.count i := by rw [happend]
      _ = 1 := hcount
  · intro i hi
    have hmem : i ∈ perm := by
      rw [← happend]
      rcases hi with hi | hi
      · exact List.mem_append.mpr (Or.inl hi)
      · exact List.mem_append.mpr (Or.inr hi)
    exact List.mem_range.mp (hperm.mem_iff.mp hmem)

/-- Witness for C3 at N = 12 with the identity permutation: 11 train indices,
1 test index, and index 5 appears exactly once across the two subsets. -/
theorem C3_split_sizes_and_partition_witness :
    (splitDataset 12 (List.range 12)).1.length = 11 ∧
    (splitDataset 12 (List.range 12)).2.length = 1 ∧
    (splitDataset 12 (List.range 12)).1.count 5 +
      (splitDataset 12 (List.range 12)).2.count 5 = 1 := by
  obtain ⟨h1, h2, h3, -⟩ :=
    C3_split_sizes_and_partition 12 (List.range 12) (List.Perm.refl _)
  exact ⟨h1.trans (by norm_num), h2.trans (by norm_num), h3 5 (by norm_num)⟩

/-- The checkpointing state of the training loop: the best average test loss
seen so far and the checkpoint file's contents (`none` while no `torch.save`
has run). `P` is the type of serialized parameter snapshots. -/
structure TrainState (P : Type) where
  best_loss : ℚ
  saved : Option P

/-- One epoch's effect on the checkpointing state, given that epoch's
average test loss and the model parameters at its end: mirrors
`if test_loss < best_loss: torch.save(model.state_dict(), ...); best_loss = test_loss`. -/
def epochStep {P : Type} (s : TrainState P) (e : ℚ × P) : TrainState P :=
  if e.1 < s.best_loss then { best_loss := e.1, saved := some e.2 } else s

/-- The training loop's checkpointing behaviour over a run: each epoch is
abstracted to its (average test loss, end-of-epoch parameters) pair — the
inner batch arithmetic is library territory — and `best_loss` starts at the
notebook's sentinel `1e9`. -/
def trainLoop {P : Type} (epochs : List (ℚ × P)) : TrainState P :=
  epochs.foldl epochStep ⟨1000000000, none⟩

/-- Whether the checkpoint file is written during epoch `k` of the run:
epoch `k` sees the state left by the first `k` epochs and writes exactly
when its test loss beats that state's `best_loss`. -/
def writesAt {P : Type} (epochs : List (ℚ × P)) (k : Nat) : Bool :=
  match epochs[k]? with
  | some e => decide (e.1 < (trainLoop (epochs.take k)).best_loss)
  | none => false

/-- The running `best_loss` is the minimum of the initial value and the
losses folded so far. -/
lemma foldl_epochStep_best {P : Type} (l : List (ℚ × P)) (b : ℚ)
    (s : Option P) :
    (l.foldl epochStep ⟨b, s⟩).best_loss = (l.map Prod.fst).foldl min b := by
  induction l generalizing b s with
  | nil => rfl
  | cons e l ih =>
    simp only [List.foldl_cons, List.map_cons]
    by_cases hc : e.1 < b
    · simp only [epochStep, if_pos hc]
      rw [ih, min_eq_right hc.le]
    · simp only [epochStep, if_neg hc]
      rw [ih, min_eq_left (le_of_not_lt hc)]

/-- Folding `min` never rises above the start value. -/
lemma foldl_min_le (l : List ℚ) (b : ℚ) : l.foldl min b ≤ b := by
  induction l generalizing b with
  | nil => exact le_refl b
  | cons c l ih => exact le_trans (ih (min b c)) (min_le_left b c)

/-- Strictly beating a fold of `min` means beating the start value and every
element. -/
lemma lt_foldl_min_iff (a b : ℚ) (l : List ℚ) :
    a < l.foldl min b ↔ a < b ∧ ∀ x ∈ l, a < x := by
  induction l generalizing b with
  | nil => simp
  | cons c l ih =>
    rw [List.foldl_cons, ih, lt_min_iff]
    constructor
    · rintro ⟨⟨hab, hac⟩, hl⟩
      refine ⟨hab, fun x hx => ?_⟩
      rcases List.mem_cons.mp hx with rfl | hx
      · exact hac
      · exact hl x hx
    · rintro ⟨hab, hl⟩
      exact ⟨⟨hab, hl c (List.mem_cons_self c l)⟩,
        fun x hx => hl x (List.mem_cons_of_mem c hx)⟩

/-- If no epoch beats the current best, the state is untouched. -/
lemma foldl_epochStep_no_update {P : Type} (l : List (ℚ × P)) (b : ℚ)
    (s : Option P) (h : ∀ e ∈ l, b ≤ e.1) :
    l.foldl epochStep ⟨b, s⟩ = ⟨b, s⟩ := by
  induction l with
  | nil => rfl
  | cons e l ih =>
    rw [List.foldl_cons,
      show epochStep ⟨b, s⟩ e = ⟨b, s⟩ from by
        simp [epochStep, not_lt.mpr (h e (List.mem_cons_self e l))]]
    exact ih (fun e' he' => h e' (List.mem_cons_of_mem e he'))

/-- If some epoch beats the initial best, the final saved snapshot is the
parameters of the first epoch attaining the run's minimum loss. -/
lemma foldl_epochStep_saved {P : Type} (l : List (ℚ × P)) (b : ℚ)
    (s : Option P) (h : ∃ e ∈ l, e.1 < b) :
    ∃ (k : Nat) (e : ℚ × P),
      l[k]? = some e ∧ (l.foldl epochStep ⟨b, s⟩).saved = some e.2 ∧
      e.1 < b ∧ (∀ ej ∈ l, e.1 ≤ ej.1) ∧
      ∀ j ej, j < k → l[j]? = some ej → e.1 < ej.1 := by
  induction l generalizing b s with
  | nil => simp at h
  | cons e0 l ih =>
    rw [List.foldl_cons]
    by_cases hc : e0.1 < b
    · rw [show epochStep ⟨b, s⟩ e0 = ⟨e0.1, some e0.2⟩ from by
        simp [epochStep, hc]]
      by_cases hl : ∃ e ∈ l, e.1 < e0.1
      · obtain ⟨k, e, hk, hsaved, heb, hmin, hstrict⟩ := ih e0.1 (some e0.2) hl
        refine ⟨k + 1, e, ?_, hsaved, lt_trans heb hc, ?_, ?_⟩
        · rw [List.getElem?_cons_succ]; exact hk
        · intro ej hej
          rcases List.mem_cons.mp hej with rfl | hej
          · exact le_of_lt heb
          · exact hmin ej hej
        · intro j ej hj hje
          cases j with
          | zero =>
            rw [List.getElem?_cons_zero] at hje
            injection hje with he'
            rw [← he']
            exact heb
          | succ j =>
            rw [List.getElem?_cons_succ] at hje
            exact hstrict j ej (Nat.lt_of_succ_lt_succ hj) hje
      · push_neg at hl
        rw [foldl_epochStep_no_update l e0.1 (some e0.2) hl]
        refine ⟨0, e0, List.getElem?_cons_zero, rfl, hc, ?_, ?_⟩
        · intro ej hej
          rcases List.mem_cons.mp hej with rfl | hej
          · exact le_refl _
          · exact hl ej hej
        · intro j ej hj _
          exact absurd hj (Nat.not_lt_zero j)
    · rw [show epochStep ⟨b, s⟩ e0 = ⟨b, s⟩ from by simp [epochStep, hc]]
      have hl : ∃ e ∈ l, e.1 < b := by
        obtain ⟨e, he, heb⟩ := h
        rcases List.mem_cons.mp he with rfl | he
        · exact absurd heb hc
        · exact ⟨e, he, heb⟩
      obtain ⟨k, e, hk, hsaved, heb, hmin, hstrict⟩ := ih b s hl
      refine ⟨k + 1, e, ?_, hsaved, heb, ?_, ?_⟩
      · rw [List.getElem?_cons_succ]; exact hk
      · intro ej hej
        rcases List.mem_cons.mp hej with rfl | hej
        · exact le_trans (le_of_lt heb) (not_lt.mp hc)
        · exact hmin ej hej
      · intro j ej hj hje
        cases j with
        | zero =>
          rw [List.getElem?_cons_zero] at hje
          injection hje with he'
          rw [← he']
          exact lt_of_lt_of_le heb (not_lt.mp hc)
        | succ j =>
          rw [List.getElem?_cons_succ] at hje
          exact hstrict j ej (Nat.lt_of_succ_lt_succ hj) hje

/-- Counterexample to C2 as stated: a run whose single epoch has average test
loss 2·10⁹ exists, its first epoch (vacuously) beats every prior epoch and
the claimed "infinitely large" initial comparison value would let it write,
yet the code writes no checkpoint in it: the code's sentinel is the finite
1e9. -/
theorem C2_counterexample :
    [((2000000000 : ℚ), (0 : Nat))].length = 1 ∧
    writesAt [((2000000000 : ℚ), (0 : Nat))] 0 = false := by
  refine ⟨rfl, ?_⟩
  unfold writesAt
  rw [List.getElem?_cons_zero]
  rw [decide_eq_false_iff_not]
  unfold trainLoop
  norm_num

/-- C2 amended: the checkpoint is written in epoch k iff that epoch's average
test loss is below the finite sentinel 1e9 and strictly below every prior
epoch's average test loss.  (As stated the claim fails, because the initial
comparison value is 1e9 rather than infinite, so a first epoch with loss of
at least 1e9 does not write; see the counterexample.) -/
theorem C2_checkpoint_iff_strict_minimum {P : Type} (epochs : List (ℚ × P))
    (k : Nat) (e : ℚ × P) (h : epochs[k]? = some e) :
    writesAt epochs k = true ↔
      (e.1 < 1000000000 ∧ ∀ ej ∈ epochs.take k, e.1 < ej.1) := by
  unfold writesAt
  rw [h]
  rw [decide_eq_true_eq]
  unfold trainLoop
  rw [foldl_epochStep_best, lt_foldl_min_iff]
  constructor
  · rintro ⟨hb, hl⟩
    exact ⟨hb, fun ej hej => hl ej.1 (List.mem_map_of_mem Prod.fst hej)⟩
  · rintro ⟨hb, hl⟩
    refine ⟨hb, fun x hx => ?_⟩
    obtain ⟨ej, hej, rfl⟩ := List.mem_map.mp hx
    exact hl ej hej

/-- Witness for the amended C2: in the run with losses 5 then 3, epoch 1
writes because 3 beats both the sentinel and the prior loss 5. -/
theorem C2_checkpoint_iff_strict_minimum_witness :
    writesAt [((5 : ℚ), (0 : Nat)), ((3 : ℚ), (1 : Nat))] 1 = true := by
  rw [C2_checkpoint_iff_strict_minimum
    [((5 : ℚ), (0 : Nat)), ((3 : ℚ), (1 : Nat))] 1 ((3 : ℚ), (1 : Nat)) rfl]
  refine ⟨by norm_num, ?_⟩
  intro ej hej
  have : ej = ((5 : ℚ), (0 : Nat)) := by
    simpa using hej
  rw [this]
  norm_num

/-- C10: an epoch whose average test loss is at least 1e9 never writes the
checkpoint, even when it is the lowest loss observed so far (including the
very first epoch); a run all of whose epochs have test loss at least 1e9
finishes with no checkpoint ever written. -/
theorem C10_sentinel_blocks_large_losses {P : Type} (epochs : List (ℚ × P)) :
    (∀ k e, epochs[k]? = some e → (1000000000 : ℚ) ≤ e.1 →
      writesAt epochs k = false) ∧
    ((∀ e ∈ epochs, (1000000000 : ℚ) ≤ e.1) →
      (trainLoop epochs).saved = none) := by
  constructor
  · intro k e hk he
    unfold writesAt
    rw [hk, decide_eq_false_iff_not]
    intro hlt
    have hb : (trainLoop (epochs.take k)).best_loss ≤ 1000000000 := by
      unfold trainLoop
      rw [foldl_epochStep_best]
      exact foldl_min_le _ _
    exact absurd (lt_of_lt_of_le hlt hb) (not_lt.mpr he)
  · intro hall
    unfold trainLoop
    rw [foldl_epochStep_no_update _ _ _ hall]

/-- Witness for C10: the run with the single loss 2·10⁹ writes nothing. -/
theorem C10_sentinel_blocks_large_losses_witness :
    writesAt [((2000000000 : ℚ), (7 : Nat))] 0 = false ∧
    (trainLoop [((2000000000 : ℚ), (7 : Nat))]).saved = none := by
  obtain ⟨h1, h2⟩ :=
    C10_sentinel_blocks_large_losses [((2000000000 : ℚ), (7 : Nat))]
  refine ⟨h1 0 ((2000000000 : ℚ), (7 : Nat)) rfl (by norm_num), h2 ?_⟩
  intro e he
  have : e = ((2000000000 : ℚ), (7 : Nat)) := by simpa using he
  rw [this]
  norm_num

/-- Counterexample to C7 as stated: in the run whose single epoch has test
loss 2·10⁹, that epoch is the one with the lowest loss observed during the
run, yet after the loop the checkpoint file does not hold its parameters —
nothing was ever written. -/
theorem C7_counterexample :
    (trainLoop [((2000000000 : ℚ), (42 : Nat))]).saved = none ∧
    (trainLoop [((2000000000 : ℚ), (42 : Nat))]).saved ≠ some 42 := by
  have h : (trainLoop [((2000000000 : ℚ), (42 : Nat))]).saved = none := by
    unfold trainLoop
    rw [foldl_epochStep_no_update]
    intro e he
    have : e = ((2000000000 : ℚ), (42 : Nat)) := by simpa using he
    rw [this]
    norm_num
  refine ⟨h, ?_⟩
  rw [h]
  simp

/-- C7 amended: provided some epoch's average test loss is below the 1e9
sentinel, after the loop the checkpoint holds the parameters of the first
epoch attaining the run's minimum test loss — the best epoch's parameters,
not necessarily the final epoch's.  (As stated the claim fails when every
loss is at least 1e9, since then nothing is written; see the
counterexample.) -/
theorem C7_checkpoint_holds_best_epoch_params {P : Type}
    (epochs : List (ℚ × P)) (h : ∃ e ∈ epochs, e.1 < 1000000000) :
    ∃ (k : Nat) (e : ℚ × P),
      epochs[k]? = some e ∧ (trainLoop epochs).saved = some e.2 ∧
      (∀ ej ∈ epochs, e.1 ≤ ej.1) ∧
      ∀ j ej, j < k → epochs[j]? = some ej → e.1 < ej.1 := by
  obtain ⟨k, e, hk, hsaved, -, hmin, hstrict⟩ :=
    foldl_epochStep_saved epochs 1000000000 none h
  exact ⟨k, e, hk, hsaved, hmin, hstrict⟩

/-- Witness for the amended C7: in the run with losses 5, 3, 4 the final
checkpoint holds the parameters saved at the end of the loss-3 epoch. -/
theorem C7_checkpoint_holds_best_epoch_params_witness :
    (trainLoop [((5 : ℚ), (10 : Nat)), ((3 : ℚ), (20 : Nat)),
        ((4 : ℚ), (30 : Nat))]).saved = some 20 := by
  obtain ⟨k, e, hk, hsaved, hmin, hstrict⟩ :=
    C7_checkpoint_holds_best_epoch_params
      [((5 : ℚ), (10 : Nat)), ((3 : ℚ), (20 : Nat)), ((4 : ℚ), (30 : Nat))]
      ⟨((3 : ℚ), (20 : Nat)), by simp, by norm_num⟩
  have h3 : e.1 ≤ 3 := hmin ((3 : ℚ), (20 : Nat)) (by simp)
  cases k with
  | zero =>
    rw [List.getElem?_cons_zero] at hk
    injection hk with he'
    rw [← he'] at h3
    norm_num at h3
  | succ k =>
    cases k with
    | zero =>
      rw [List.getElem?_cons_succ, List.getElem?_cons_zero] at hk
      injection hk with he'
      rw [← he'] at hsaved
      exact hsaved
    | succ k =>
      cases k with
      | zero =>
        rw [List.getElem?_cons_succ, List.getElem?_cons_succ,
          List.getElem?_cons_zero] at hk
        injection hk with he'
        rw [← he'] at h3
        norm_num at h3
      | succ k =>
        rw [List.getElem?_cons_succ, List.getElem?_cons_succ,
          List.getElem?_cons_succ] at hk
        simp at hk
